import Mathlib

/-!
Verification of the Q16 fixed-point reciprocal-square-root approximator.

The repository contains two variants with the same contract:
* a "reference" variant (64-bit shift-add multiplier, two Newton steps);
* an "optimal" variant (16×16→32 multiplies only, one Newton step).

Machine integers are embedded as `Nat` with explicit `% 2^32` / `% 2^64`
reductions wherever the C code performs 32-bit or 64-bit arithmetic;
wrapping unsigned subtraction `a - b` is embedded as `(a + 2^w - b) % 2^w`.
-/

namespace Rsqrt

/-- One halving stage of the portable CLZ: the running count `n` gains `w`
when the tested high bits of `x` are zero. Mirrors `if ((x >> k) == 0) n += w`. -/
def clzN (w x n : Nat) : Nat :=
  if x / 2 ^ (32 - w) = 0 then n + w else n

/-- One halving stage of the portable CLZ: `x` is shifted up by `w` (as a
32-bit value) when its tested high bits are zero. Mirrors `x <<= w`. -/
def clzX (w x : Nat) : Nat :=
  if x / 2 ^ (32 - w) = 0 then x * 2 ^ w % 2 ^ 32 else x

/-- Portable software count-leading-zeros on a 32-bit value (`clz32` in both
source files): binary-search halving in chunks of 16, 8, 4, 2, 1 bits;
returns 32 for input 0. -/
def clz32 (x : Nat) : Nat :=
  if x = 0 then 32 else
  let n1 := clzN 16 x 0
  let x1 := clzX 16 x
  let n2 := clzN 8 x1 n1
  let x2 := clzX 8 x1
  let n3 := clzN 4 x2 n2
  let x3 := clzX 4 x2
  let n4 := clzN 2 x3 n3
  let x4 := clzX 2 x3
  if x4 / 2 ^ 31 = 0 then n4 + 1 else n4

/-- Index of the highest set bit of `x` (`exp = 31u - clz32(x)` in both
source files); for a nonzero 32-bit `x` the subtraction cannot wrap since
`clz32 x ≤ 31`. -/
def exp_of (x : Nat) : Nat := 31 - clz32 x

/-- Loop body of the shift-add multiplier (`while (b) { if (b & 1) acc += aa;
aa <<= 1; b >>= 1; }` on 64-bit `acc`/`aa`), embedded with a fuel counter:
a 32-bit multiplier is exhausted after at most 32 halvings, so fuel 32 makes
the recursion structural without changing the computed value. -/
def mulLoop (fuel acc aa b : Nat) : Nat :=
  match fuel with
  | 0 => acc
  | f + 1 =>
    if b = 0 then acc
    else mulLoop f (if b % 2 = 1 then (acc + aa) % 2 ^ 64 else acc)
           (aa * 2 % 2 ^ 64) (b / 2)

/-- Shift-add multiplication `mul32_shift_add` (reference variant): 32×32→64
product built by conditional addition of a doubling operand. -/
def mul32_shift_add (a b : Nat) : Nat := mulLoop 32 0 a b

/-- Partial product of one 4-bit chunk in `mul16x16_32`: `a` times a nibble
value built from at most four conditional shifted additions, in 32-bit
arithmetic. -/
def nibbleProd (a nib : Nat) : Nat :=
  let p := 0
  let p := if nib % 2 = 1 then (p + a) % 2 ^ 32 else p
  let p := if nib / 2 % 2 = 1 then (p + a * 2 % 2 ^ 32) % 2 ^ 32 else p
  let p := if nib / 4 % 2 = 1 then (p + a * 4 % 2 ^ 32) % 2 ^ 32 else p
  let p := if nib / 8 % 2 = 1 then (p + a * 8 % 2 ^ 32) % 2 ^ 32 else p
  p

/-- 16×16→32 multiplication `mul16x16_32` (optimal variant): the second
operand is consumed in 4-bit nibbles at shifts 0, 4, 8, 12, each contributing
a shifted partial product, in 32-bit arithmetic. -/
def mul16x16_32 (a16 b16 : Nat) : Nat :=
  let a := a16 % 2 ^ 16
  List.foldl
    (fun acc shift => (acc + nibbleProd a (b16 / 2 ^ shift % 16) * 2 ^ shift % 2 ^ 32) % 2 ^ 32)
    0 [0, 4, 8, 12]

/-- The static 32-entry Q16 lookup table `rsqrt_table`, identical in both
source files (entry 0 is `UINT16_MAX = 65535`); a compile-time constant,
never mutated. -/
def rsqrt_table : List Nat :=
  [65535, 46341, 32768, 23170, 16384,
   11585, 8192, 5793, 4096, 2896,
   2048, 1448, 1024, 724, 512,
   362, 256, 181, 128, 90,
   64, 45, 32, 23, 16,
   11, 8, 6, 4, 3,
   2, 1]

/-- Table fetch `rsqrt_table[i]` (reads are always in `[0, 31]`; out-of-range
indices default to 0 in the embedding). -/
def table_at (i : Nat) : Nat := rsqrt_table.getD i 0

/-- `y_base = rsqrt_table[exp]` of both variants. -/
def y_base_of (x : Nat) : Nat := table_at (exp_of x)

/-- `y_next = (exp < 31) ? rsqrt_table[exp + 1] : 1` of both variants. -/
def y_next_of (x : Nat) : Nat :=
  if exp_of x < 31 then table_at (exp_of x + 1) else 1

/-- `delta = y_base - y_next` (32-bit wrapping subtraction), identical in both
variants (`dy` in the optimal source). -/
def delta_of (x : Nat) : Nat := (y_base_of x + 2 ^ 32 - y_next_of x) % 2 ^ 32

/-- Reference variant's `one_exp = (exp < 31) ? (1u << exp) : 0u`. -/
def one_exp_ref (x : Nat) : Nat :=
  if exp_of x < 31 then 2 ^ exp_of x % 2 ^ 32 else 0

/-- Reference variant's interpolation fraction
`(uint32_t)((((uint64_t)x - (uint64_t)one_exp) << 16) >> exp)`:
64-bit wrapping subtraction and shift, truncated to 32 bits. -/
def frac_ref (x : Nat) : Nat :=
  (x + 2 ^ 64 - one_exp_ref x) % 2 ^ 64 * 2 ^ 16 % 2 ^ 64 / 2 ^ exp_of x % 2 ^ 32

/-- Reference variant's interpolated Newton seed
`y = y_base - (uint32_t)(mul32_shift_add(delta, frac) >> 16)`. -/
def seed_ref (x : Nat) : Nat :=
  (y_base_of x + 2 ^ 32 - mul32_shift_add (delta_of x) (frac_ref x) / 2 ^ 16 % 2 ^ 32) % 2 ^ 32

/-- Reference Newton step, part 1: `y2 = mul32_shift_add(y, y)`. -/
def y2_ref (y : Nat) : Nat := mul32_shift_add y y

/-- Reference Newton step, part 2: `(x*y^2) >> 16` with round-to-nearest on
the low part, `(prod_hi << 16) + ((prod_lo + (1ull << 15)) >> 16)` in 64-bit
arithmetic, truncated to 32 bits. -/
def xy2_ref (y x : Nat) : Nat :=
  (mul32_shift_add x (y2_ref y / 2 ^ 32 % 2 ^ 32) * 2 ^ 16 % 2 ^ 64 +
    (mul32_shift_add x (y2_ref y % 2 ^ 32) + 2 ^ 15) % 2 ^ 64 / 2 ^ 16) % 2 ^ 64 % 2 ^ 32

/-- Reference Newton step, part 3: `term = (3u << 16) - xy2_q16` (32-bit
wrapping subtraction). -/
def term_ref (y x : Nat) : Nat := (3 * 2 ^ 16 + 2 ^ 32 - xy2_ref y x) % 2 ^ 32

/-- One Q16 Newton step of the reference variant (`q16_newton_step` in the
shift-add source): `y * (3 - x*y^2/2^16) / 2` with round-to-nearest at the
final 17-bit shift, `(uint32_t)((prod + (1ull << 16)) >> 17)`. -/
def q16_newton_step_ref (y x : Nat) : Nat :=
  (mul32_shift_add y (term_ref y x) + 2 ^ 16) % 2 ^ 64 / 2 ^ 17 % 2 ^ 32

/-- `fast_rsqrt` of the reference variant: range bucket via CLZ, table
interpolation, then two Newton steps. -/
def fast_rsqrt_ref (x : Nat) : Nat :=
  if x = 0 then 0
  else q16_newton_step_ref (q16_newton_step_ref (seed_ref x) x) x

/-- Optimal variant's `base = 1u << e` (valid for every `e ≤ 31`). -/
def base_opt (x : Nat) : Nat := 2 ^ exp_of x % 2 ^ 32

/-- Optimal variant's `diff = x - base` (32-bit wrapping subtraction). -/
def diff_opt (x : Nat) : Nat := (x + 2 ^ 32 - base_opt x) % 2 ^ 32

/-- Optimal variant's interpolation fraction, computed without 64-bit
operations: `(e >= 16) ? diff >> (e - 16) : diff << (16 - e)`. -/
def frac_opt (x : Nat) : Nat :=
  if 16 ≤ exp_of x then diff_opt x / 2 ^ (exp_of x - 16)
  else diff_opt x * 2 ^ (16 - exp_of x) % 2 ^ 32

/-- Optimal variant's interpolated Newton seed
`y = y0 - (mul16x16_32(dy, frac) >> 16)`. -/
def seed_opt (x : Nat) : Nat :=
  (y_base_of x + 2 ^ 32 - mul16x16_32 (delta_of x) (frac_opt x) / 2 ^ 16) % 2 ^ 32

/-- Optimal Newton step, part 1: `(x*y^2) >> 16` assembled from four 16×16
partial products into a 64-bit accumulator, truncated to 32 bits. The seed
is first masked to its low 16 bits (`y &= 0xFFFF`). -/
def xy2_opt (y0 x : Nat) : Nat :=
  let y := y0 % 2 ^ 16
  let y2 := mul16x16_32 y y
  let acc := mul16x16_32 (x / 2 ^ 16) (y2 / 2 ^ 16) * 2 ^ 16 % 2 ^ 64
  let acc := (acc + mul16x16_32 (x % 2 ^ 16) (y2 / 2 ^ 16)) % 2 ^ 64
  let acc := (acc + mul16x16_32 (x / 2 ^ 16) (y2 % 2 ^ 16)) % 2 ^ 64
  let acc := (acc + mul16x16_32 (x % 2 ^ 16) (y2 % 2 ^ 16) / 2 ^ 16) % 2 ^ 64
  acc % 2 ^ 32

/-- Optimal Newton step, part 2: `term = (3u << 16) - xy2_q16` (32-bit
wrapping subtraction). -/
def term_opt (y0 x : Nat) : Nat := (3 * 2 ^ 16 + 2 ^ 32 - xy2_opt y0 x) % 2 ^ 32

/-- One Q16 Newton step of the optimal variant (`q16_newton_step` in the
16×16 source): `(y*term) >> 17` is split as
`((y * (term >> 16)) >> 1) + ((y * (term & 0xFFFF)) >> 17)`, where the
integer part of `term` is multiplied via at most two shifts and adds. -/
def q16_newton_step_opt (y0 x : Nat) : Nat :=
  let y := y0 % 2 ^ 16
  let term := term_opt y0 x
  let term_hi := term / 2 ^ 16
  let y_mul_hi :=
    if term_hi = 3 then (y * 2 % 2 ^ 32 + y) % 2 ^ 32
    else if term_hi = 2 then y * 2 % 2 ^ 32
    else if term_hi = 1 then y
    else 0
  (y_mul_hi / 2 + mul16x16_32 y (term % 2 ^ 16) / 2 ^ 17) % 2 ^ 32

/-- `fast_rsqrt` of the optimal variant: range bucket via CLZ, table
interpolation, then a single Newton step. -/
def fast_rsqrt_opt (x : Nat) : Nat :=
  if x = 0 then 0 else q16_newton_step_opt (seed_opt x) x

/-- Written from the spec's words, for comparison with the code: `r` is the
integer nearest to `√N` (equivalently, to `2^16/√(2^i)` when `N = 2^(32-i)`),
i.e. `|r - √N| ≤ 1/2`. Since `√N` is never a half-integer there are no ties,
and the condition is equivalent to `(2r-1)^2 ≤ 4N < (2r+1)^2`. -/
def isNearestSqrt (N r : Nat) : Prop :=
  1 ≤ r ∧ (2 * r - 1) ^ 2 ≤ 4 * N ∧ 4 * N < (2 * r + 1) ^ 2

instance (N r : Nat) : Decidable (isNearestSqrt N r) := by
  unfold isNearestSqrt; infer_instance

/-- Written from the spec's words, for comparison with the code: the claimed
interpolation fraction `((x − 2^exp) << 16) >> exp` computed without any
wrapping. -/
def spec_frac (x : Nat) : Nat := (x - 2 ^ exp_of x) * 2 ^ 16 / 2 ^ exp_of x

/-- Written from the spec's words, for comparison with the code: `r` is
within relative error `num/den` of the true value `2^16/√x`, in exact
squared-integer form: `(den-num)·2^16/√x ≤ den·r ≤ (den+num)·2^16/√x`,
each side squared and multiplied by `x`. -/
def relErrWithin (x r num den : Nat) : Prop :=
  (den - num) ^ 2 * 2 ^ 32 ≤ (den * r) ^ 2 * x ∧
    (den * r) ^ 2 * x ≤ (den + num) ^ 2 * 2 ^ 32

instance (x r num den : Nat) : Decidable (relErrWithin x r num den) := by
  unfold relErrWithin; infer_instance

/-! ### Supporting lemmas -/

set_option maxHeartbeats 2000000 in
/-- Characterisation of `clz32`: shifting a nonzero 32-bit value left by its
leading-zero count lands it in `[2^31, 2^32)`. -/
theorem clz32_shift (x : Nat) (hx : 0 < x) (hx32 : x < 2 ^ 32) :
    2 ^ 31 ≤ x * 2 ^ clz32 x ∧ x * 2 ^ clz32 x < 2 ^ 32 := by
  simp only [clz32, clzN, clzX]
  split_ifs <;> omega

/-- `exp_of` really is the highest-set-bit index: `x ∈ [2^exp, 2^(exp+1))`,
with `exp_of x ≤ 31` for a nonzero 32-bit input. -/
theorem exp_of_spec (x : Nat) (hx : 0 < x) (hx32 : x < 2 ^ 32) :
    exp_of x ≤ 31 ∧ 2 ^ exp_of x ≤ x ∧ x < 2 ^ (exp_of x + 1) := by
  obtain ⟨h1, h2⟩ := clz32_shift x hx hx32
  have hc : clz32 x ≤ 31 := by
    by_contra hgt
    have h32 : 32 ≤ clz32 x := by omega
    have : 2 ^ 32 ≤ x * 2 ^ clz32 x :=
      le_trans (Nat.le_mul_of_pos_left _ hx)
        (Nat.mul_le_mul_left x (Nat.pow_le_pow_right (by norm_num) h32))
    omega
  have he : exp_of x = 31 - clz32 x := rfl
  refine ⟨by omega, ?_, ?_⟩
  · have : 2 ^ exp_of x * 2 ^ clz32 x ≤ x * 2 ^ clz32 x := by
      calc 2 ^ exp_of x * 2 ^ clz32 x = 2 ^ (exp_of x + clz32 x) := (pow_add 2 _ _).symm
        _ = 2 ^ 31 := by rw [he]; congr 1; omega
        _ ≤ x * 2 ^ clz32 x := h1
    exact Nat.le_of_mul_le_mul_right this (Nat.pos_pow_of_pos _ (by norm_num))
  · have : x * 2 ^ clz32 x < 2 ^ (exp_of x + 1) * 2 ^ clz32 x := by
      calc x * 2 ^ clz32 x < 2 ^ 32 := h2
        _ = 2 ^ (exp_of x + 1) * 2 ^ clz32 x := by
            rw [← pow_add]; congr 1; omega
    exact Nat.lt_of_mul_lt_mul_right this

theorem mulLoop_spec (fuel : Nat) : ∀ acc aa b : Nat, b < 2 ^ fuel → acc < 2 ^ 64 →
    mulLoop fuel acc aa b = (acc + aa * b) % 2 ^ 64 := by
  induction fuel with
  | zero =>
    intro acc aa b hb hacc
    have hb0 : b = 0 := by omega
    subst hb0
    simp only [mulLoop]
    omega
  | succ f ih =>
    intro acc aa b hb hacc
    rw [mulLoop]
    have hb2 : b / 2 < 2 ^ f := by
      have : 2 ^ (f + 1) = 2 ^ f * 2 := by ring
      omega
    split_ifs with h0 hbit
    · subst h0; omega
    · rw [ih _ _ _ hb2 (Nat.mod_lt _ (by norm_num))]
      have e1 : (acc + aa) % 2 ^ 64 + aa * 2 % 2 ^ 64 * (b / 2) ≡
          acc + aa + aa * 2 * (b / 2) [MOD 2 ^ 64] :=
        Nat.ModEq.add (Nat.mod_modEq _ _) (Nat.ModEq.mul_right _ (Nat.mod_modEq _ _))
      have e2 : acc + aa + aa * 2 * (b / 2) = acc + aa * b := by
        have hsplit : 2 * (b / 2) + 1 = b := by omega
        calc acc + aa + aa * 2 * (b / 2) = acc + aa * (2 * (b / 2) + 1) := by ring
          _ = acc + aa * b := by rw [hsplit]
      rw [e2] at e1
      exact e1
    · rw [ih _ _ _ hb2 hacc]
      have e1 : acc + aa * 2 % 2 ^ 64 * (b / 2) ≡
          acc + aa * 2 * (b / 2) [MOD 2 ^ 64] :=
        Nat.ModEq.add_left acc (Nat.ModEq.mul_right _ (Nat.mod_modEq _ _))
      have e2 : acc + aa * 2 * (b / 2) = acc + aa * b := by
        have hsplit : 2 * (b / 2) = b := by omega
        calc acc + aa * 2 * (b / 2) = acc + aa * (2 * (b / 2)) := by ring
          _ = acc + aa * b := by rw [hsplit]
      rw [e2] at e1
      exact e1

/-- The shift-add multiplier is the exact product on 32-bit operands. -/
theorem mul32_shift_add_exact (a b : Nat) (ha : a < 2 ^ 32) (hb : b < 2 ^ 32) :
    mul32_shift_add a b = a * b := by
  have hab : a * b < 2 ^ 64 := by
    calc a * b ≤ (2 ^ 32 - 1) * (2 ^ 32 - 1) := Nat.mul_le_mul (by omega) (by omega)
      _ < 2 ^ 64 := by norm_num
  have h := mulLoop_spec 32 0 a b hb (by norm_num)
  rw [mul32_shift_add] at *
  rw [h]
  omega

/-- A zero multiplier exits the shift-add loop immediately with 0. -/
theorem mul32_shift_add_zero (a : Nat) : mul32_shift_add a 0 = 0 := rfl

theorem nibbleProd_exact (a nib : Nat) (ha : a < 2 ^ 16) (hn : nib < 16) :
    nibbleProd a nib = a * nib := by
  simp only [nibbleProd]
  have h2 : a * 2 % 2 ^ 32 = a * 2 := Nat.mod_eq_of_lt (by omega)
  have h4 : a * 4 % 2 ^ 32 = a * 4 := Nat.mod_eq_of_lt (by omega)
  have h8 : a * 8 % 2 ^ 32 = a * 8 := Nat.mod_eq_of_lt (by omega)
  rw [h2, h4, h8]
  interval_cases nib <;> simp <;> omega

/-- The nibble-grouped multiplier is the exact product on 16-bit operands. -/
theorem mul16x16_32_exact (a b : Nat) (ha : a < 2 ^ 16) (hb : b < 2 ^ 16) :
    mul16x16_32 a b = a * b := by
  have ha' : a % 2 ^ 16 = a := Nat.mod_eq_of_lt ha
  have hn0 : b / 2 ^ 0 % 16 < 16 := Nat.mod_lt _ (by norm_num)
  have hn4 : b / 2 ^ 4 % 16 < 16 := Nat.mod_lt _ (by norm_num)
  have hn8 : b / 2 ^ 8 % 16 < 16 := Nat.mod_lt _ (by norm_num)
  have hn12 : b / 2 ^ 12 % 16 < 16 := Nat.mod_lt _ (by norm_num)
  simp only [mul16x16_32, List.foldl, ha',
    nibbleProd_exact a _ ha hn0, nibbleProd_exact a _ ha hn4,
    nibbleProd_exact a _ ha hn8, nibbleProd_exact a _ ha hn12]
  have b0 : b / 2 ^ 0 % 16 ≤ 15 := by omega
  have b4 : b / 2 ^ 4 % 16 ≤ 15 := by omega
  have b8 : b / 2 ^ 8 % 16 ≤ 15 := by omega
  have b12 : b / 2 ^ 12 % 16 ≤ 15 := by omega
  have ha15 : a ≤ 2 ^ 16 - 1 := by omega
  have p0 : a * (b / 2 ^ 0 % 16) ≤ (2 ^ 16 - 1) * 15 := Nat.mul_le_mul ha15 b0
  have p4 : a * (b / 2 ^ 4 % 16) ≤ (2 ^ 16 - 1) * 15 := Nat.mul_le_mul ha15 b4
  have p8 : a * (b / 2 ^ 8 % 16) ≤ (2 ^ 16 - 1) * 15 := Nat.mul_le_mul ha15 b8
  have p12 : a * (b / 2 ^ 12 % 16) ≤ (2 ^ 16 - 1) * 15 := Nat.mul_le_mul ha15 b12
  have hdecomp : b / 2 ^ 0 % 16 + 16 * (b / 2 ^ 4 % 16) + 256 * (b / 2 ^ 8 % 16)
      + 4096 * (b / 2 ^ 12 % 16) = b := by omega
  have hb' : a * (b / 2 ^ 0 % 16) + a * (b / 2 ^ 4 % 16) * 16
      + a * (b / 2 ^ 8 % 16) * 256 + a * (b / 2 ^ 12 % 16) * 4096 = a * b := by
    calc a * (b / 2 ^ 0 % 16) + a * (b / 2 ^ 4 % 16) * 16
        + a * (b / 2 ^ 8 % 16) * 256 + a * (b / 2 ^ 12 % 16) * 4096
        = a * (b / 2 ^ 0 % 16 + 16 * (b / 2 ^ 4 % 16) + 256 * (b / 2 ^ 8 % 16)
            + 4096 * (b / 2 ^ 12 % 16)) := by ring
      _ = a * b := by rw [hdecomp]
  omega

/-- A 32-bit input at or above `2^31` is in the top bucket. -/
theorem exp_of_eq_31 (x : Nat) (hbig : 2 ^ 31 ≤ x) (hx32 : x < 2 ^ 32) :
    exp_of x = 31 := by
  obtain ⟨h31, hlo, hhi⟩ := exp_of_spec x (by omega) hx32
  by_contra hne
  have hle : exp_of x + 1 ≤ 31 := by omega
  have : x < 2 ^ 31 := lt_of_lt_of_le hhi (Nat.pow_le_pow_right (by norm_num) hle)
  omega

/-- The bucket's fractional-position value `((x - 2^exp) << 16) >> exp` is a
proper Q16 fraction. -/
theorem spec_frac_lt (x : Nat) (hx : 0 < x) (hx32 : x < 2 ^ 32) :
    spec_frac x < 2 ^ 16 := by
  obtain ⟨h31, hlo, hhi⟩ := exp_of_spec x hx hx32
  have hd : x - 2 ^ exp_of x < 2 ^ exp_of x := by
    have : (2 : Nat) ^ (exp_of x + 1) = 2 * 2 ^ exp_of x := by ring
    omega
  rw [spec_frac, Nat.div_lt_iff_lt_mul (Nat.pos_pow_of_pos _ (by norm_num))]
  calc (x - 2 ^ exp_of x) * 2 ^ 16 < 2 ^ exp_of x * 2 ^ 16 :=
        (Nat.mul_lt_mul_right (by norm_num)).mpr hd
    _ = 2 ^ 16 * 2 ^ exp_of x := Nat.mul_comm _ _

/-- The optimal variant's shift-split fraction agrees with the spec formula
(and in particular is a proper Q16 fraction, both shifts staying in range). -/
theorem frac_opt_eq_spec (x : Nat) (hx : 0 < x) (hx32 : x < 2 ^ 32) :
    frac_opt x = spec_frac x := by
  obtain ⟨h31, hlo, hhi⟩ := exp_of_spec x hx hx32
  have hpe32 : (2 : Nat) ^ exp_of x < 2 ^ 32 :=
    lt_of_le_of_lt (Nat.pow_le_pow_right (by norm_num) h31) (by norm_num)
  have hd : x - 2 ^ exp_of x < 2 ^ exp_of x := by
    have : (2 : Nat) ^ (exp_of x + 1) = 2 * 2 ^ exp_of x := by ring
    omega
  have hbase : base_opt x = 2 ^ exp_of x := Nat.mod_eq_of_lt hpe32
  have hdiff : diff_opt x = x - 2 ^ exp_of x := by
    rw [diff_opt, hbase]
    omega
  rw [frac_opt, hdiff, spec_frac]
  by_cases h16 : 16 ≤ exp_of x
  · rw [if_pos h16]
    have hsplit : (2 : Nat) ^ exp_of x = 2 ^ (exp_of x - 16) * 2 ^ 16 := by
      rw [← pow_add]
      congr 1
      omega
    conv_rhs => rw [hsplit]
    rw [Nat.mul_div_mul_right _ _ (by norm_num : (0 : Nat) < 2 ^ 16)]
    rw [← hsplit]
  · rw [if_neg h16]
    have hsplit : (2 : Nat) ^ 16 = 2 ^ exp_of x * 2 ^ (16 - exp_of x) := by
      rw [← pow_add]
      congr 1
      omega
    have hsmall : (x - 2 ^ exp_of x) * 2 ^ (16 - exp_of x) < 2 ^ 16 := by
      calc (x - 2 ^ exp_of x) * 2 ^ (16 - exp_of x)
          < 2 ^ exp_of x * 2 ^ (16 - exp_of x) :=
            (Nat.mul_lt_mul_right (Nat.pos_pow_of_pos _ (by norm_num))).mpr hd
        _ = 2 ^ 16 := hsplit.symm
    rw [Nat.mod_eq_of_lt (lt_trans hsmall (by norm_num))]
    rw [hsplit, show (x - 2 ^ exp_of x) * (2 ^ exp_of x * 2 ^ (16 - exp_of x))
        = (x - 2 ^ exp_of x) * 2 ^ (16 - exp_of x) * 2 ^ exp_of x by ring]
    rw [Nat.mul_div_cancel _ (Nat.pos_pow_of_pos _ (by norm_num))]

/-- Below the top bucket, the reference variant's 64-bit fraction agrees with
the spec formula. -/
theorem frac_ref_eq_spec (x : Nat) (hx : 0 < x) (hx31 : x < 2 ^ 31) :
    frac_ref x = spec_frac x := by
  obtain ⟨h31, hlo, hhi⟩ := exp_of_spec x hx (by omega)
  have hene : exp_of x < 31 := by
    by_contra hge
    have h31' : exp_of x = 31 := by omega
    rw [h31'] at hlo
    omega
  have hpe32 : (2 : Nat) ^ exp_of x < 2 ^ 32 :=
    lt_of_le_of_lt (Nat.pow_le_pow_right (by norm_num) h31) (by norm_num)
  have hone : one_exp_ref x = 2 ^ exp_of x := by
    rw [one_exp_ref, if_pos hene]
    exact Nat.mod_eq_of_lt hpe32
  have hsub : (x + 2 ^ 64 - one_exp_ref x) % 2 ^ 64 = x - 2 ^ exp_of x := by
    rw [hone]
    omega
  have hnowrap : (x - 2 ^ exp_of x) * 2 ^ 16 % 2 ^ 64 = (x - 2 ^ exp_of x) * 2 ^ 16 :=
    Nat.mod_eq_of_lt (by omega)
  rw [frac_ref, hsub, hnowrap]
  show spec_frac x % 2 ^ 32 = spec_frac x
  exact Nat.mod_eq_of_lt (lt_trans (spec_frac_lt x hx (by omega)) (by norm_num))

/-- In the top bucket the reference variant's `one_exp` is 0, so its fraction
is `(x << 16) >> 31 = x >> 15`, which is at least `2^16` — outside the spec's
claimed range. -/
theorem frac_ref_top_bucket (x : Nat) (hbig : 2 ^ 31 ≤ x) (hx32 : x < 2 ^ 32) :
    frac_ref x = x * 2 ^ 16 / 2 ^ 31 ∧ 2 ^ 16 ≤ frac_ref x := by
  have he : exp_of x = 31 := exp_of_eq_31 x hbig hx32
  have hone : one_exp_ref x = 0 := by
    rw [one_exp_ref, he]
    norm_num
  rw [frac_ref, hone, he]
  constructor <;> omega

/-! ### Claim theorems -/

/-- C2: `fast_rsqrt(0) = 0` in both variants, as a defined result; both
functions are total over all inputs, always producing a 32-bit value with no
other distinguished failure mode. -/
theorem C2_zero_and_total :
    fast_rsqrt_ref 0 = 0 ∧ fast_rsqrt_opt 0 = 0 ∧
    ∀ x : Nat, fast_rsqrt_ref x < 2 ^ 32 ∧ fast_rsqrt_opt x < 2 ^ 32 := by
  refine ⟨rfl, rfl, fun x => ⟨?_, ?_⟩⟩
  · by_cases hx : x = 0
    · subst hx; norm_num [fast_rsqrt_ref]
    · simp only [fast_rsqrt_ref, if_neg hx, q16_newton_step_ref]
      exact Nat.mod_lt _ (by norm_num)
  · by_cases hx : x = 0
    · subst hx; norm_num [fast_rsqrt_opt]
    · simp only [fast_rsqrt_opt, if_neg hx, q16_newton_step_opt]
      exact Nat.mod_lt _ (by norm_num)

/-- C4: each restricted-width multiply primitive computes the exact product on
operands of its documented width: `mul32_shift_add` is exact on 32-bit
operands (returning 0 immediately for a zero multiplier), and `mul16x16_32`
is exact on 16-bit operands. -/
theorem C4_multiply_primitives_exact :
    (∀ a b : Nat, a < 2 ^ 32 → b < 2 ^ 32 → mul32_shift_add a b = a * b) ∧
    (∀ a : Nat, mul32_shift_add a 0 = 0) ∧
    (∀ a b : Nat, a < 2 ^ 16 → b < 2 ^ 16 → mul16x16_32 a b = a * b) :=
  ⟨mul32_shift_add_exact, mul32_shift_add_zero, mul16x16_32_exact⟩

/-- Witness for C4 at concrete operands. -/
theorem C4_multiply_primitives_exact_witness :
    mul32_shift_add 123456789 987654321 = 123456789 * 987654321 ∧
    mul32_shift_add 42 0 = 0 ∧
    mul16x16_32 54321 65535 = 54321 * 65535 :=
  ⟨C4_multiply_primitives_exact.1 123456789 987654321 (by norm_num) (by norm_num),
   C4_multiply_primitives_exact.2.1 42,
   C4_multiply_primitives_exact.2.2 54321 65535 (by norm_num) (by norm_num)⟩

/-- C10: the optimal variant's Newton step depends only on the low 16 bits of
its seed estimate (`y &= 0xFFFF` discards higher bits). -/
theorem C10_newton_opt_masks_seed : ∀ y x : Nat,
    q16_newton_step_opt y x = q16_newton_step_opt (y % 2 ^ 16) x := by
  intro y x
  simp only [q16_newton_step_opt, term_opt, xy2_opt, Nat.mod_mod_of_dvd _ dvd_rfl]

/-- C9 counterexample: the optimal variant returns 65535 at `x = 1`, not the
claimed exact 65536 (its truncating final shift loses the last ulp). -/
theorem C9_counterexample :
    fast_rsqrt_opt 1 = 65535 ∧ fast_rsqrt_opt 1 ≠ 65536 := by decide

set_option maxHeartbeats 2000000 in
/-- C9 amended: on the spec's sample inputs the reference variant returns
exactly 65536 at `x = 1` while the optimal variant returns 65535; both
return exactly 32768 at `x = 4`; both return 2072 at `x = 1000` (within one
ulp of the spec's ≈2073 and within 0.1% of the true value); both return
exactly 1 at `x = 0xFFFFFFFF`. -/
theorem C9_sample_outputs :
    fast_rsqrt_ref 1 = 65536 ∧ fast_rsqrt_opt 1 = 65535 ∧
    fast_rsqrt_ref 4 = 32768 ∧ fast_rsqrt_opt 4 = 32768 ∧
    fast_rsqrt_ref 1000 = 2072 ∧ fast_rsqrt_opt 1000 = 2072 ∧
    fast_rsqrt_ref 4294967295 = 1 ∧ fast_rsqrt_opt 4294967295 = 1 ∧
    relErrWithin 1000 2072 1 1000 ∧ relErrWithin 4 32768 0 1 ∧
    relErrWithin 4294967295 1 1 1000 := by decide

/-- C5 counterexample: table entry 0 is 65535 (`UINT16_MAX`), not the claimed
`round(2^16/√(2^0)) = 65536` (which does not fit in 16 bits). -/
theorem C5_counterexample :
    table_at 0 = 65535 ∧ ¬ isNearestSqrt (2 ^ (32 - 0)) (table_at 0) ∧
    isNearestSqrt (2 ^ (32 - 0)) 65536 := by decide

/-- C5 amended: every table entry fits in 16 bits, and entry `i` equals
`round(2^16/√(2^i))` for every `i` except `i = 0` — where the rounded value
65536 exceeds `UINT16_MAX` and the entry is the clamped 65535 — and `i = 19`,
where the entry is 90, one below the rounded value 91. -/
theorem C5_table_entries :
    (∀ i, i < 32 → table_at i < 2 ^ 16) ∧
    (∀ i, i < 32 → i ≠ 0 → i ≠ 19 → isNearestSqrt (2 ^ (32 - i)) (table_at i)) ∧
    table_at 0 = 2 ^ 16 - 1 ∧ isNearestSqrt (2 ^ 32) (2 ^ 16) ∧
    table_at 19 = 90 ∧ isNearestSqrt (2 ^ 13) 91 := by decide

/-- Witness for C5 amended at entry 7. -/
theorem C5_table_entries_witness :
    table_at 7 < 2 ^ 16 ∧ isNearestSqrt (2 ^ (32 - 7)) (table_at 7) :=
  ⟨C5_table_entries.1 7 (by norm_num),
   C5_table_entries.2.1 7 (by norm_num) (by norm_num) (by norm_num)⟩

set_option maxHeartbeats 2000000 in
/-- C3 counterexample: both variants violate non-increasing monotonicity:
the reference at the pair `(2^30 - 1, 2^30)` (values 1 < 2) and the optimal
at the pair `(1563, 1564)` (values 1651 < 1652). -/
theorem C3_counterexample :
    1073741823 < 1073741824 ∧ 0 < (1073741823 : Nat) ∧
    fast_rsqrt_ref 1073741823 = 1 ∧ fast_rsqrt_ref 1073741824 = 2 ∧
    ¬ fast_rsqrt_ref 1073741823 ≥ fast_rsqrt_ref 1073741824 ∧
    1563 < 1564 ∧ fast_rsqrt_opt 1563 = 1651 ∧ fast_rsqrt_opt 1564 = 1652 ∧
    ¬ fast_rsqrt_opt 1563 ≥ fast_rsqrt_opt 1564 := by decide

set_option maxHeartbeats 4000000 in
/-- C3 amended: monotonicity fails in general (see the counterexample), but
both variants are non-increasing across the harness's sample inputs. -/
theorem C3_monotone_on_samples :
    ∀ a ∈ [1, 2, 4, 5, 10, 16, 20, 100, 1000, 4294967295],
    ∀ b ∈ [1, 2, 4, 5, 10, 16, 20, 100, 1000, 4294967295],
    a < b → fast_rsqrt_ref a ≥ fast_rsqrt_ref b ∧ fast_rsqrt_opt a ≥ fast_rsqrt_opt b := by
  decide

/-- Witness for C3 amended at the pair (4, 16). -/
theorem C3_monotone_on_samples_witness :
    fast_rsqrt_ref 4 ≥ fast_rsqrt_ref 16 ∧ fast_rsqrt_opt 4 ≥ fast_rsqrt_opt 16 :=
  C3_monotone_on_samples 4 (by decide) 16 (by decide) (by decide)

set_option maxHeartbeats 2000000 in
/-- C1 counterexample: at `x = 2^31` both variants return 1 while the true
value is `2^16/√(2^31) = √2 ≈ 1.414`; the relative error is ≈29.3%, so the
claimed ~0.1% bound (and even a 25% bound) fails. -/
theorem C1_counterexample :
    fast_rsqrt_ref (2 ^ 31) = 1 ∧ fast_rsqrt_opt (2 ^ 31) = 1 ∧
    ¬ relErrWithin (2 ^ 31) (fast_rsqrt_ref (2 ^ 31)) 1 1000 ∧
    ¬ relErrWithin (2 ^ 31) (fast_rsqrt_opt (2 ^ 31)) 250 1000 := by decide

set_option maxHeartbeats 4000000 in
/-- C1 amended: the bounded-relative-error contract holds on the harness's
sample inputs — within 0.1% for the reference variant (two Newton steps) and
within the looser 0.5% for the optimal variant (one step) — but not for all
`x > 0` (see the counterexample at `x = 2^31`). -/
theorem C1_relative_error_on_samples :
    ∀ x ∈ [1, 2, 4, 5, 10, 16, 20, 100, 1000, 4294967295],
      relErrWithin x (fast_rsqrt_ref x) 1 1000 ∧
      relErrWithin x (fast_rsqrt_opt x) 5 1000 := by decide

/-- Witness for C1 amended at `x = 1000`. -/
theorem C1_relative_error_on_samples_witness :
    relErrWithin 1000 (fast_rsqrt_ref 1000) 1 1000 ∧
    relErrWithin 1000 (fast_rsqrt_opt 1000) 5 1000 :=
  C1_relative_error_on_samples 1000 (by decide)

/-- C6 counterexample: the optimal variant's Newton step truncates the final
`(y*term) >> 17` instead of rounding to nearest: at `(y, x) = (2, 65536)` it
returns 2, while the claimed round-to-nearest result `(y*term + 2^16) >> 17`
is 3. -/
theorem C6_counterexample :
    q16_newton_step_opt 2 65536 = 2 ∧
    (2 * term_opt 2 65536 + 2 ^ 16) / 2 ^ 17 = 3 ∧
    q16_newton_step_opt 2 65536 ≠ (2 * term_opt 2 65536 + 2 ^ 16) / 2 ^ 17 := by decide

/-- C6 amended: only the reference variant computes the final `(y·term) >> 17`
with round-to-nearest, adding the half-LSB `2^16` before the 17-bit shift
(its `(x·y²) >> 16` likewise adds `2^15` before the 16-bit shift, visible in
`xy2_ref`); the optimal variant truncates instead (see the counterexample). -/
theorem C6_ref_rounds_to_nearest : ∀ y x : Nat, y < 2 ^ 32 → x < 2 ^ 32 →
    q16_newton_step_ref y x = (y * term_ref y x + 2 ^ 16) / 2 ^ 17 % 2 ^ 32 := by
  intro y x hy hx
  have ht : term_ref y x < 2 ^ 32 := Nat.mod_lt _ (by norm_num)
  have hprod : mul32_shift_add y (term_ref y x) = y * term_ref y x :=
    mul32_shift_add_exact _ _ hy ht
  have hlt : y * term_ref y x + 2 ^ 16 < 2 ^ 64 := by
    have : y * term_ref y x ≤ (2 ^ 32 - 1) * (2 ^ 32 - 1) :=
      Nat.mul_le_mul (by omega) (by omega)
    omega
  rw [q16_newton_step_ref, hprod, Nat.mod_eq_of_lt hlt]

/-- Witness for C6 amended at `(y, x) = (65535, 1000)`. -/
theorem C6_ref_rounds_to_nearest_witness :
    q16_newton_step_ref 65535 1000 =
      (65535 * term_ref 65535 1000 + 2 ^ 16) / 2 ^ 17 % 2 ^ 32 :=
  C6_ref_rounds_to_nearest 65535 1000 (by norm_num) (by norm_num)

/-- C8: for a nonzero 32-bit input every lookup-table access is at an index
in `[0, 31]`, and every input with highest set bit 31 (`2^31 ≤ x`) takes the
clamp path: `exp = 31` and `y_next` is the boundary constant 1 instead of a
table fetch. -/
theorem C8_exp31_clamp : ∀ x : Nat, 0 < x → x < 2 ^ 32 →
    exp_of x ≤ 31 ∧ (exp_of x < 31 → exp_of x + 1 ≤ 31) ∧
    (2 ^ 31 ≤ x → exp_of x = 31 ∧ y_next_of x = 1) := by
  intro x hx hx32
  obtain ⟨h31, hlo, hhi⟩ := exp_of_spec x hx hx32
  refine ⟨h31, fun h => by omega, fun hbig => ?_⟩
  have he : exp_of x = 31 := by
    by_contra hne
    have hle : exp_of x + 1 ≤ 31 := by omega
    have : x < 2 ^ 31 := lt_of_lt_of_le hhi (Nat.pow_le_pow_right (by norm_num) hle)
    omega
  refine ⟨he, ?_⟩
  simp only [y_next_of, he]
  norm_num

/-- Witness for C8 at `x = 2^31`. -/
theorem C8_exp31_clamp_witness :
    exp_of (2 ^ 31) ≤ 31 ∧
    (exp_of (2 ^ 31) < 31 → exp_of (2 ^ 31) + 1 ≤ 31) ∧
    (2 ^ 31 ≤ 2 ^ 31 → exp_of (2 ^ 31) = 31 ∧ y_next_of (2 ^ 31) = 1) :=
  C8_exp31_clamp (2 ^ 31) (by norm_num) (by norm_num)

/-- C7 counterexample: at `x = 2^31` the reference variant's fraction is
`(x << 16) >> 31 = 65536` (because its `one_exp` is 0 there), which differs
from the spec formula `((x − 2^exp) << 16) >> exp = 0` and lies outside
`[0, 2^16)`. -/
theorem C7_counterexample :
    frac_ref (2 ^ 31) = 2 ^ 16 ∧ spec_frac (2 ^ 31) = 0 ∧
    frac_ref (2 ^ 31) ≠ spec_frac (2 ^ 31) ∧ ¬ frac_ref (2 ^ 31) < 2 ^ 16 := by
  decide

/-- C7 amended: the optimal variant's fraction equals
`((x − 2^exp) << 16) >> exp` and lies in `[0, 2^16)` for every nonzero 32-bit
input; the reference variant's fraction does so only below the top bucket
(`x < 2^31`), while for `2^31 ≤ x` it computes `(x << 16) >> 31` instead,
which is at least `2^16`. -/
theorem C7_interpolation_fraction : ∀ x : Nat, 0 < x → x < 2 ^ 32 →
    (frac_opt x = spec_frac x ∧ frac_opt x < 2 ^ 16) ∧
    (x < 2 ^ 31 → frac_ref x = spec_frac x ∧ frac_ref x < 2 ^ 16) ∧
    (2 ^ 31 ≤ x → frac_ref x = x * 2 ^ 16 / 2 ^ 31 ∧ 2 ^ 16 ≤ frac_ref x) := by
  intro x hx hx32
  refine ⟨⟨frac_opt_eq_spec x hx hx32, ?_⟩, fun h31 => ⟨frac_ref_eq_spec x hx h31, ?_⟩,
    fun hbig => frac_ref_top_bucket x hbig hx32⟩
  · rw [frac_opt_eq_spec x hx hx32]
    exact spec_frac_lt x hx hx32
  · rw [frac_ref_eq_spec x hx h31]
    exact spec_frac_lt x hx hx32

/-- Witness for C7 amended at `x = 1000` (bucket `exp = 9`). -/
theorem C7_interpolation_fraction_witness :
    (frac_opt 1000 = spec_frac 1000 ∧ frac_opt 1000 < 2 ^ 16) ∧
    (1000 < 2 ^ 31 → frac_ref 1000 = spec_frac 1000 ∧ frac_ref 1000 < 2 ^ 16) ∧
    (2 ^ 31 ≤ 1000 → frac_ref 1000 = 1000 * 2 ^ 16 / 2 ^ 31 ∧ 2 ^ 16 ≤ frac_ref 1000) :=
  C7_interpolation_fraction 1000 (by norm_num) (by norm_num)

end Rsqrt
